import Mathlib

/-!
Verification of the arena editorial pipeline's interval and quality-gate logic.

This file gives a shallow embedding, over the rationals, of the algorithmic
core of the repository:

* `StandaloneContextRefiner._validate_and_refine` and
  `_validate_refinement_bounds` (src/engine/arena/editorial/layer3_context_refiner.py),
* `ThoughtBoundaryAnalyzer._analyze_single` (layer2_boundary_analyzer.py),
* `MomentDetector._chunk_segments`, `_merge_chunk_results` and
  `_calculate_overlap` (layer1_moment_detector.py),
* `SentenceBoundaryDetector.find_sentence_boundaries`,
  `find_nearest_boundary_before/after`, `align_clip_to_boundaries`,
  `_has_sentence_ending`, `_starts_with_transition` and
  `_deduplicate_boundaries` (src/engine/arena/ai/sentence_detector.py),

followed by theorems settling the behavioural claims about those functions.
Python floats are modelled as rationals; the external text-completion service
is modelled by quantifying over its parsed, well-formed responses; transport
failures, retries and logging collapse to the `Option` layer.
-/

namespace Arena

/-! ## Layer 3: StandaloneContextRefiner (quality gate) -/

/-- Verdict values of the quality gate ("PASS" / "REVISE" / "REJECT"). -/
inductive Verdict
  | PASS
  | REVISE
  | REJECT
deriving DecidableEq, Repr

/-- The fields of a Layer-2 thought dict consumed by `_validate_and_refine`:
only `expanded_start` and `expanded_end` influence the control flow. -/
structure Thought where
  expanded_start : ℚ
  expanded_end : ℚ
deriving DecidableEq, Repr

/-- A parsed, well-formed response of `_validate_single`: the tuple
`(refined_start, refined_end, standalone_score, editor_notes, rejection_reason)`
with the notes field dropped (it never influences control flow). -/
structure ValResponse where
  refined_start : ℚ
  refined_end : ℚ
  standalone_score : ℚ
  rejection_reason : Option String
deriving DecidableEq, Repr

/-- The fields of the validated-clip dict returned by `_validate_and_refine`
that the claims are about. In the unreachable fallback return the Python dict
has no `rejection_reason` key at all; we model that as `none`. -/
structure Clip where
  refined_start : ℚ
  refined_end : ℚ
  standalone_score : ℚ
  verdict : Verdict
  rejection_reason : Option String
deriving DecidableEq, Repr

/-- PASS_THRESHOLD = 0.7. -/
def PASS_THRESHOLD : ℚ := 7/10

/-- REVISE_THRESHOLD = 0.4. -/
def REVISE_THRESHOLD : ℚ := 4/10

/-- MAX_ITERATIONS = 2. -/
def MAX_ITERATIONS : ℕ := 2

/-- MAX_ADJUSTMENT_SECONDS = 15.0 in `_validate_refinement_bounds`. -/
def MAX_ADJUSTMENT_SECONDS : ℚ := 15

/-- Translation of `_validate_refinement_bounds`: true iff both the start and
the end adjustment are within 15 seconds of the Layer-2 bounds. -/
def validateRefinementBounds (original_start original_end refined_start refined_end : ℚ) :
    Bool :=
  if MAX_ADJUSTMENT_SECONDS < |original_start - refined_start| then false
  else if MAX_ADJUSTMENT_SECONDS < |original_end - refined_end| then false
  else true

/-- Python `if min_duration and duration < min_duration`: an absent or zero
(falsy) `min_duration` disables the check. -/
def durationBelowMin : Option ℚ → ℚ → Bool
  | none, _ => false
  | some m, d => if m = 0 then false else decide (d < m)

/-- Python `if max_duration and duration > max_duration`: an absent or zero
(falsy) `max_duration` disables the check. -/
def durationAboveMax : Option ℚ → ℚ → Bool
  | none, _ => false
  | some m, d => if m = 0 then false else decide (m < d)

/-- Python `rejection_reason or 'structural_issue'`: `None` and the empty
string are falsy, so they fall back to `'structural_issue'`. -/
def orStructuralIssue : Option String → String
  | none => "structural_issue"
  | some s => if s = "" then "structural_issue" else s

/-- Translation of the `while iteration < MAX_ITERATIONS` loop body of
`_validate_and_refine`. `fuel` is the number of iterations still allowed
(2 on entry); the Python test `iteration < self.MAX_ITERATIONS` inside the
body is `0 < fuel` here. `cur_start`/`cur_end` are the bounds whose transcript
text was submitted this round; the remaining well-formed responses of
`_validate_single` are consumed one per round, and an exhausted response list
models a `None` result (parse failure), which makes the whole call return
`None`. The `fuel = 0` case is the unreachable fallback dict after the loop. -/
def validateRefineLoop (thought : Thought) (min_duration max_duration : Option ℚ) :
    ℕ → ℚ → ℚ → List ValResponse → Option Clip
  | 0, cur_start, cur_end, _ =>
      some ⟨cur_start, cur_end, 0, .REJECT, none⟩
  | _ + 1, _, _, [] => none
  | fuel + 1, cur_start, cur_end, r :: rest =>
      let duration := r.refined_end - r.refined_start
      if durationBelowMin min_duration duration then
        some ⟨cur_start, cur_end, r.standalone_score, .REJECT, some "duration_constraint"⟩
      else if durationAboveMax max_duration duration then
        some ⟨cur_start, cur_end, r.standalone_score, .REJECT, some "duration_constraint"⟩
      else if PASS_THRESHOLD ≤ r.standalone_score then
        some ⟨r.refined_start, r.refined_end, r.standalone_score, .PASS, none⟩
      else if REVISE_THRESHOLD ≤ r.standalone_score then
        if 0 < fuel then
          if ¬ validateRefinementBounds thought.expanded_start thought.expanded_end
              r.refined_start r.refined_end then
            some ⟨cur_start, cur_end, r.standalone_score, .REJECT,
              some (orStructuralIssue r.rejection_reason)⟩
          else
            validateRefineLoop thought min_duration max_duration fuel
              r.refined_start r.refined_end rest
        else
          some ⟨r.refined_start, r.refined_end, r.standalone_score, .REVISE, none⟩
      else
        some ⟨cur_start, cur_end, r.standalone_score, .REJECT, r.rejection_reason⟩

/-- Translation of `_validate_and_refine`: start at the Layer-2 expanded
bounds with both iterations available. -/
def validateAndRefine (thought : Thought) (min_duration max_duration : Option ℚ)
    (responses : List ValResponse) : Option Clip :=
  validateRefineLoop thought min_duration max_duration MAX_ITERATIONS
    thought.expanded_start thought.expanded_end responses

/-! ## Shared data model -/

/-- A transcript segment. `end` is a Lean keyword, so the segment's end time
is called `stop`; the text is kept as a character list to mirror Python
string operations exactly. -/
structure Segment where
  start : ℚ
  stop : ℚ
  text : List Char
deriving DecidableEq, Repr

/-- The fields of a Layer-1 candidate-moment dict that drive control flow:
`rough_start`, `rough_end` and `interest_score`. -/
structure Moment where
  rough_start : ℚ
  rough_end : ℚ
  interest_score : ℚ
deriving DecidableEq, Repr

/-! ## Layer 2: ThoughtBoundaryAnalyzer -/

/-- CONTEXT_WINDOW_SECONDS = 60.0. -/
def CONTEXT_WINDOW_SECONDS : ℚ := 60

/-- A parsed, well-formed response of the Layer-2 service call: the
`expanded_start`, `expanded_end` and `confidence` fields of the JSON. -/
structure BoundaryResponse where
  expanded_start : ℚ
  expanded_end : ℚ
  confidence : ℚ
deriving DecidableEq, Repr

/-- The thought dict built by `_analyze_single` (fields the claims mention). -/
structure ThoughtBoundary where
  expanded_start : ℚ
  expanded_end : ℚ
  confidence : ℚ
  original_moment : Moment
deriving DecidableEq, Repr

/-- Translation of `_analyze_single` for one moment and one parsed,
well-formed service response: extract the ±60s context window around the
midpoint of the rough bounds, fail if it is empty, and otherwise build the
thought dict directly from the response fields. The code performs no
validation or clamping of `expanded_start`/`expanded_end` against the rough
bounds; the 30-second caps appear only as instructions inside the prompt
text. -/
def analyzeSingle (moment : Moment) (segments : List Segment)
    (response : BoundaryResponse) : Option ThoughtBoundary :=
  let rough_center := (moment.rough_start + moment.rough_end) / 2
  let context_start := max 0 (rough_center - CONTEXT_WINDOW_SECONDS)
  let context_end := rough_center + CONTEXT_WINDOW_SECONDS
  let context_segments := segments.filter
    (fun seg => context_start ≤ seg.start ∧ seg.stop ≤ context_end)
  if context_segments.isEmpty then none
  else some ⟨response.expanded_start, response.expanded_end, response.confidence, moment⟩

/-! ## Layer 1: MomentDetector chunking -/

/-- Python `current_chunk[-overlap_size:] if overlap_size > 0 else []` with
`overlap_size = int(len(current_chunk) * 0.1)` (DEFAULT_OVERLAP_RATIO = 0.10):
the trailing tenth, by count, of the closed chunk. `int(n * 0.1)` agrees with
`n / 10` in natural division for every feasible chunk length, and when
`n / 10 = 0` dropping all `n` elements gives `[]`, matching the guard. -/
def overlapPart {α : Type} (chunk : List α) : List α :=
  chunk.drop (chunk.length - chunk.length / 10)

/-- Total estimated token cost of a list of segments; `tok` abstracts
`_estimate_tokens` applied to the formatted segment (the estimator is an
external tokenizer, deterministic per segment). -/
def sumTok {α : Type} (tok : α → ℕ) (l : List α) : ℕ :=
  (l.map tok).sum

/-- Translation of the loop of `_chunk_segments`. `current_tokens` mirrors the
running Python accumulator (recomputed from the overlap seed on a chunk
close). A chunk is closed when adding the next segment would exceed the
budget and the chunk is non-empty; the new chunk is seeded with the trailing
tenth of the closed one, and the segment is then appended unconditionally. -/
def chunkLoop {α : Type} (tok : α → ℕ) (max_tokens : ℕ) :
    List α → List α → ℕ → List (List α)
  | [], current_chunk, _ =>
      if current_chunk.isEmpty then [] else [current_chunk]
  | seg :: rest, current_chunk, current_tokens =>
      let segment_tokens := tok seg
      if max_tokens < current_tokens + segment_tokens ∧ ¬ current_chunk.isEmpty then
        let overlap_segments := overlapPart current_chunk
        current_chunk ::
          chunkLoop tok max_tokens rest (overlap_segments ++ [seg])
            (sumTok tok overlap_segments + segment_tokens)
      else
        chunkLoop tok max_tokens rest (current_chunk ++ [seg])
          (current_tokens + segment_tokens)

/-- Translation of `_chunk_segments`. -/
def chunkSegments {α : Type} (tok : α → ℕ) (max_tokens : ℕ) (segments : List α) :
    List (List α) :=
  chunkLoop tok max_tokens segments [] 0

/-! ## Layer 1: MomentDetector merge / dedup -/

/-- DEDUP_THRESHOLD = 0.5. -/
def DEDUP_THRESHOLD : ℚ := 1/2

/-- Translation of `_calculate_overlap`: overlap duration divided by the
smaller of the two durations, 0 when the intervals do not overlap or the
smaller duration is non-positive. -/
def calculateOverlap (moment1 moment2 : Moment) : ℚ :=
  let s := max moment1.rough_start moment2.rough_start
  let e := min moment1.rough_end moment2.rough_end
  if e ≤ s then 0
  else
    let overlap_duration := e - s
    let moment1_duration := moment1.rough_end - moment1.rough_start
    let moment2_duration := moment2.rough_end - moment2.rough_start
    let min_duration := min moment1_duration moment2_duration
    if 0 < min_duration then overlap_duration / min_duration else 0

/-- Sorting key of `all_moments.sort(key=lambda m: m['rough_start'])`. -/
def momentLE (a b : Moment) : Prop := a.rough_start ≤ b.rough_start

instance : DecidableRel momentLE :=
  fun a b => inferInstanceAs (Decidable (a.rough_start ≤ b.rough_start))

instance : IsTotal Moment momentLE := ⟨fun _ _ => le_total _ _⟩

instance : IsTrans Moment momentLE := ⟨fun _ _ _ h h' => le_trans h h'⟩

/-- One row of the dedup sweep of `_merge_chunk_results`: scan the moments
after `moment1` in start order. The result is (does `moment1` survive this
row?, the later moments not yet marked skipped). Taking the later item off
the pool models adding its index to `skip_indices`; breaking with the rest of
the pool intact models the `break` statements. -/
def innerScan (moment1 : Moment) : List Moment → Bool × List Moment
  | [] => (true, [])
  | moment2 :: rest =>
      if moment1.rough_end < moment2.rough_start then
        (true, moment2 :: rest)
      else if DEDUP_THRESHOLD < calculateOverlap moment1 moment2 then
        if moment1.interest_score < moment2.interest_score then
          (false, moment2 :: rest)
        else
          innerScan moment1 rest
      else
        ((innerScan moment1 rest).1, moment2 :: (innerScan moment1 rest).2)

/-- The outer loop of the dedup sweep, fuelled by the list length (the pool
shrinks every step, so length-many steps always suffice). -/
def mergeSweep : ℕ → List Moment → List Moment
  | 0, _ => []
  | _ + 1, [] => []
  | fuel + 1, moment1 :: rest =>
      if (innerScan moment1 rest).1 then
        moment1 :: mergeSweep fuel (innerScan moment1 rest).2
      else
        mergeSweep fuel (innerScan moment1 rest).2

/-- Translation of `_merge_chunk_results`: concatenate the per-chunk lists
(the `source_chunk` tag is added and later stripped, so it is omitted), sort
by `rough_start` with a stable sort, and run the dedup sweep. -/
def mergeChunkResults (chunk_results : List (List Moment)) : List Moment :=
  let sorted := List.insertionSort momentLE chunk_results.flatten
  mergeSweep sorted.length sorted

/-! ## SentenceBoundaryDetector -/

/-- A boundary dict (the fields all claims touch: time, type, confidence). -/
structure Boundary where
  time : ℚ
  btype : String
  confidence : ℚ
deriving DecidableEq, Repr

/-- Python `str.strip()`: drop whitespace from both ends. -/
def pyStrip (text : List Char) : List Char :=
  ((text.dropWhile Char.isWhitespace).reverse.dropWhile Char.isWhitespace).reverse

/-- Python `str.strip(chars)`: drop the given characters from both ends. -/
def pyStripChars (chars : List Char) (text : List Char) : List Char :=
  ((text.dropWhile (· ∈ chars)).reverse.dropWhile (· ∈ chars)).reverse

/-- The `sentence_endings` set, as suffix strings. -/
def sentenceEndings : List (List Char) := [['.'], ['!'], ['?'], ['.', '.', '.']]

/-- Python `text[-2]` as a one-character string (empty when too short). -/
def secondLastChar (text : List Char) : List Char :=
  (text.reverse.drop 1).take 1

/-- Translation of `_has_sentence_ending`. Note the quote branch: Python
computes `any(text[-2].endswith(ending.strip('.!?')) for ending in
self.sentence_endings)`, and `ending.strip('.!?')` is the empty string for
every element of `sentence_endings`, so the `any` is true whenever the
stripped text has at least two characters. -/
def hasSentenceEnding (text : List Char) : Bool :=
  let t := pyStrip text
  if t.isEmpty then false
  else if sentenceEndings.any (fun ending => ending.isSuffixOf t) then true
  else if List.isSuffixOf ['"'] t || List.isSuffixOf ['\''] t then
    if 1 < t.length then
      sentenceEndings.any (fun ending =>
        (pyStripChars ['.', '!', '?'] ending).isSuffixOf (secondLastChar t))
    else false
  else false

/-- Python `str.lower()`. -/
def pyLower (text : List Char) : List Char := text.map Char.toLower

/-- Python `str.split()` (split on whitespace runs, no empty words). -/
def splitWsAux : List Char → List Char → List (List Char)
  | [], acc => if acc.isEmpty then [] else [acc.reverse]
  | c :: cs, acc =>
      if c.isWhitespace then
        if acc.isEmpty then splitWsAux cs [] else acc.reverse :: splitWsAux cs []
      else splitWsAux cs (c :: acc)

/-- Python `str.split()` on a character list. -/
def splitWs (text : List Char) : List (List Char) := splitWsAux text []

/-- The `transition_starters` set. -/
def transitionStarters : List (List Char) :=
  ["so", "now", "but", "however", "because", "and",
   "first", "second", "next", "finally", "also",
   "then", "therefore", "meanwhile", "additionally"].map String.toList

/-- Translation of `_starts_with_transition`. -/
def startsWithTransition (text : List Char) : Bool :=
  match splitWs (pyStrip (pyLower text)) with
  | [] => false
  | w :: _ => transitionStarters.contains (pyStripChars ['.', ',', '!', '?', ';', ':'] w)

/-- The emission scan of `find_sentence_boundaries` (the per-index loop body,
before deduplication and sorting): a `sentence_end` boundary at a segment's
end when its stripped text has a sentence ending; a `pause` boundary at a
segment's end when the gap to the next segment's start is at least the pause
threshold; a `topic_transition` boundary at the next segment's start when a
sentence-ending segment is followed by a transition-starting one. -/
def scanBoundaries (min_pause_threshold : ℚ) : List Segment → List Boundary
  | [] => []
  | [seg] =>
      if hasSentenceEnding (pyStrip seg.text) then
        [⟨seg.stop, "sentence_end", 9/10⟩]
      else []
  | seg :: next :: rest =>
      (if hasSentenceEnding (pyStrip seg.text) then
        [⟨seg.stop, "sentence_end", 9/10⟩]
      else []) ++
      (if min_pause_threshold ≤ next.start - seg.stop then
        [⟨seg.stop, "pause", 7/10⟩]
      else []) ++
      (if hasSentenceEnding (pyStrip seg.text) ∧ startsWithTransition (pyStrip next.text) then
        [⟨next.start, "topic_transition", 17/20⟩]
      else []) ++
      scanBoundaries min_pause_threshold (next :: rest)

/-- Python `list.remove` of the first element satisfying the predicate. -/
def removeFirst (p : Boundary → Bool) : List Boundary → List Boundary
  | [] => []
  | b :: rest => if p b then rest else b :: removeFirst p rest

/-- Translation of `_deduplicate_boundaries`: walk the emitted list keeping
one boundary per timestamp; a later boundary with strictly higher confidence
replaces the kept one (removed in place, appended at the end). -/
def dedupBoundariesAux : List Boundary → List Boundary → List Boundary
  | unique, [] => unique
  | unique, b :: rest =>
      match unique.find? (fun x => x.time == b.time) with
      | none => dedupBoundariesAux (unique ++ [b]) rest
      | some existing =>
          if existing.confidence < b.confidence then
            dedupBoundariesAux (removeFirst (fun x => x.time == b.time) unique ++ [b]) rest
          else
            dedupBoundariesAux unique rest

/-- Translation of `find_sentence_boundaries`: scan, deduplicate by exact
timestamp, and sort by time (stable sort, as in Python). -/
def findSentenceBoundaries (min_pause_threshold : ℚ) (segments : List Segment) :
    List Boundary :=
  List.insertionSort (fun a b => a.time ≤ b.time)
    (dedupBoundariesAux [] (scanBoundaries min_pause_threshold segments))

instance : DecidableRel (fun a b : Boundary => a.time ≤ b.time) :=
  fun a b => inferInstanceAs (Decidable (a.time ≤ b.time))

/-- Predicate of the claim (and of the code's own comments) for the quote
branch of `_has_sentence_ending`: the stripped text ends in terminal
punctuation, or in a closing quote whose preceding character is terminal
punctuation. Stated from the spec's words, for comparison with
`hasSentenceEnding`. -/
def claimSentenceEnd (text : List Char) : Bool :=
  let t := pyStrip text
  if t.isEmpty then false
  else
    sentenceEndings.any (fun ending => ending.isSuffixOf t) ||
    ((List.isSuffixOf ['"'] t || List.isSuffixOf ['\''] t) &&
      match secondLastChar t with
      | [c] => c ∈ ['.', '!', '?']
      | _ => false)

/-! ## ClipBoundaryAligner (SentenceBoundaryDetector alignment) -/

/-- Maximum of a list of rationals (`None` on empty). -/
def maxQ? : List ℚ → Option ℚ
  | [] => none
  | x :: xs => some (xs.foldl max x)

/-- Minimum of a list of rationals (`None` on empty). -/
def minQ? : List ℚ → Option ℚ
  | [] => none
  | x :: xs => some (xs.foldl min x)

/-- Translation of `find_nearest_boundary_before`: the boundaries at or
before `timestamp` sorted by distance make their closest element the
latest such time; `None` when there is none or the closest is farther than
`max_distance`. Only the `time` field of the boundary dicts is consumed
downstream, so boundaries are modelled by their times. -/
def nearestBoundaryBefore (timestamp : ℚ) (boundaries : List ℚ)
    (max_distance : Option ℚ) : Option ℚ :=
  match maxQ? (boundaries.filter (fun b => b ≤ timestamp)) with
  | none => none
  | some nearest =>
      match max_distance with
      | none => some nearest
      | some d => if d < timestamp - nearest then none else some nearest

/-- Translation of `find_nearest_boundary_after` (mirror image). -/
def nearestBoundaryAfter (timestamp : ℚ) (boundaries : List ℚ)
    (max_distance : Option ℚ) : Option ℚ :=
  match minQ? (boundaries.filter (fun b => timestamp ≤ b)) with
  | none => none
  | some nearest =>
      match max_distance with
      | none => some nearest
      | some d => if d < nearest - timestamp then none else some nearest

/-- Translation of `align_clip_to_boundaries` (the returned pair; the
metadata dict only reports the values already present here). Python's float
literal `0.2` is the rational 1/5. Steps, in source order: align both edges
within `max_adjustment`; un-invert the end; revert both edges if the aligned
duration fell below 20% of the original; extend the end for a configured
`min_clip_duration` and trim it for a configured `max_clip_duration`, both
judged against the duration before either correction, searching within 5s;
finally revert to the original pair when the result is shorter than 8s. -/
def alignClipToBoundaries (start_time end_time : ℚ) (boundaries : List ℚ)
    (max_adjustment : ℚ) (min_clip_duration max_clip_duration : Option ℚ) : ℚ × ℚ :=
  let start_boundary := nearestBoundaryBefore start_time boundaries (some max_adjustment)
  let end_boundary := nearestBoundaryAfter end_time boundaries (some max_adjustment)
  let adjusted_start := start_boundary.getD start_time
  let adjusted_end0 := end_boundary.getD end_time
  let adjusted_end1 := if adjusted_end0 ≤ adjusted_start then end_time else adjusted_end0
  let original_duration := end_time - start_time
  let adjusted_duration := adjusted_end1 - adjusted_start
  let p :=
    if 0 < original_duration ∧ adjusted_duration < original_duration * (1/5) then
      (start_time, end_time)
    else (adjusted_start, adjusted_end1)
  let duration := p.2 - p.1
  let end3 :=
    match min_clip_duration with
    | some md =>
        if duration < md then
          (nearestBoundaryAfter (p.1 + md) boundaries (some 5)).getD p.2
        else p.2
    | none => p.2
  let end4 :=
    match max_clip_duration with
    | some mD =>
        if mD < duration then
          (nearestBoundaryBefore (p.1 + mD) boundaries (some 5)).getD end3
        else end3
    | none => end3
  let final_duration := end4 - p.1
  if final_duration < 8 then (start_time, end_time) else (p.1, end4)

/-! ## Theorems about the quality gate (Layer 3) -/

/-- Unfolding of the 15-second refinement cap. -/
lemma validateRefinementBounds_iff (os oe rs re : ℚ) :
    validateRefinementBounds os oe rs re = true ↔ |os - rs| ≤ 15 ∧ |oe - re| ≤ 15 := by
  unfold validateRefinementBounds MAX_ADJUSTMENT_SECONDS
  split_ifs with h1 h2
  · simp [not_le.mpr h1]
  · simp [not_le.mpr h2]
  · simp [not_lt.mp h1, not_lt.mp h2]

/-- Invariant behind claim C10: whenever the loop is entered with current
bounds within 15 seconds of the Layer-2 expanded bounds, any clip it returns
with verdict REJECT also has bounds within 15 seconds of the expanded
bounds (all REJECT returns use the current bounds, and the current bounds
only ever move to a refinement that passed the 15-second check). -/
lemma validateRefineLoop_reject_within (thought : Thought)
    (min_duration max_duration : Option ℚ) :
    ∀ (fuel : ℕ) (cur_start cur_end : ℚ) (responses : List ValResponse) (clip : Clip),
      |cur_start - thought.expanded_start| ≤ 15 →
      |cur_end - thought.expanded_end| ≤ 15 →
      validateRefineLoop thought min_duration max_duration fuel
        cur_start cur_end responses = some clip →
      clip.verdict = .REJECT →
      |clip.refined_start - thought.expanded_start| ≤ 15 ∧
      |clip.refined_end - thought.expanded_end| ≤ 15 := by
  intro fuel
  induction fuel with
  | zero =>
      intro cur_start cur_end responses clip h1 h2 h _
      simp only [validateRefineLoop, Option.some.injEq] at h
      subst h
      exact ⟨h1, h2⟩
  | succ fuel ih =>
      intro cur_start cur_end responses clip h1 h2 h hr
      cases responses with
      | nil => simp [validateRefineLoop] at h
      | cons r rest =>
          simp only [validateRefineLoop] at h
          split_ifs at h with hd1 hd2 hp hrev hfuel hb
          all_goals try (cases Option.some.inj h; first | exact ⟨h1, h2⟩ | cases hr)
          have hb' := (validateRefinementBounds_iff _ _ _ _).mp hb
          exact ih r.refined_start r.refined_end rest clip
            (by rw [abs_sub_comm]; exact hb'.1)
            (by rw [abs_sub_comm]; exact hb'.2) h hr

/-- C1, counterexample. The claim says every PASS or REVISE clip whose bounds
differ from the Layer-2 expanded bounds differs by at most 15 seconds, and
that a larger adjustment forces REJECT. On the PASS path the code adopts the
response's refined bounds without any 15-second check: a thought with
expanded bounds (0, 30) and a well-formed response scoring 0.9 that proposes
(20, 50) yields a PASS clip whose start is 20 seconds from the expanded
start. -/
theorem c1_counterexample :
    validateAndRefine ⟨0, 30⟩ none none [⟨20, 50, 9/10, none⟩] =
      some ⟨20, 50, 9/10, .PASS, none⟩ ∧
    ¬ |(20 : ℚ) - 0| ≤ 15 := by
  constructor
  · show validateRefineLoop _ none none (1 + 1) _ _ _ = _
    norm_num [validateRefineLoop, durationBelowMin, durationAboveMax, PASS_THRESHOLD]
  · rw [abs_sub_comm]; norm_num

/-- C1, amended: the 15-second cap is enforced only on the REVISE branch
(0.4 ≤ score < 0.7) of a round with an iteration remaining. There, a
well-formed response with no duration violation whose proposed bounds are
more than 15 seconds from the Layer-2 expanded bounds forces verdict REJECT,
with the bounds evaluated this round (not the proposal) and the propagated
or defaulted rejection reason. Scenario D (score 0.55, start shifted 20s) is
an instance. PASS rounds and final-iteration REVISE rounds adopt the
proposed bounds without this check. -/
theorem c1_revise_cap (thought : Thought) (min_duration max_duration : Option ℚ)
    (r : ValResponse) (rest : List ValResponse)
    (hd1 : durationBelowMin min_duration (r.refined_end - r.refined_start) = false)
    (hd2 : durationAboveMax max_duration (r.refined_end - r.refined_start) = false)
    (hs1 : r.standalone_score < PASS_THRESHOLD)
    (hs2 : REVISE_THRESHOLD ≤ r.standalone_score)
    (hb : validateRefinementBounds thought.expanded_start thought.expanded_end
      r.refined_start r.refined_end = false) :
    validateAndRefine thought min_duration max_duration (r :: rest) =
      some ⟨thought.expanded_start, thought.expanded_end, r.standalone_score, .REJECT,
        some (orStructuralIssue r.rejection_reason)⟩ := by
  show validateRefineLoop _ _ _ (1 + 1) _ _ _ = _
  simp [validateRefineLoop, hd1, hd2, hb, not_le.mpr hs1, hs2]

/-- Witness for `c1_revise_cap`: Scenario D, a response scoring 0.55 whose
proposed start is shifted 20 seconds, is rejected. -/
theorem c1_revise_cap_witness :
    validateAndRefine ⟨0, 30⟩ none none [⟨20, 50, 11/20, none⟩] =
      some ⟨0, 30, 11/20, .REJECT, some "structural_issue"⟩ :=
  c1_revise_cap ⟨0, 30⟩ none none ⟨20, 50, 11/20, none⟩ []
    rfl rfl
    (by norm_num [PASS_THRESHOLD])
    (by norm_num [REVISE_THRESHOLD])
    (by norm_num [validateRefinementBounds, MAX_ADJUSTMENT_SECONDS])

/-- C2: within one round of `_validate_and_refine`, the outcome is the stated
deterministic function of the response's `standalone_score` and the
configured duration constraints. With `fuel + 1` iterations remaining
(`fuel = 1` is the first round of `validateAndRefine`): a configured
min/max duration violation of the refined bounds returns REJECT with reason
`duration_constraint` regardless of score; otherwise score ≥ 0.7 returns
PASS with the refined bounds; 0.4 ≤ score < 0.7 with an iteration remaining
either rejects (adjustment beyond 15s) or continues the loop at the refined
bounds, and with no iteration remaining settles as REVISE; score < 0.4
returns REJECT with the reported rejection reason. -/
theorem c2_verdict_deterministic (thought : Thought)
    (min_duration max_duration : Option ℚ) (fuel : ℕ) (cur_start cur_end : ℚ)
    (r : ValResponse) (rest : List ValResponse) :
    ((durationBelowMin min_duration (r.refined_end - r.refined_start) = true ∨
      durationAboveMax max_duration (r.refined_end - r.refined_start) = true) →
      validateRefineLoop thought min_duration max_duration (fuel + 1)
        cur_start cur_end (r :: rest) =
        some ⟨cur_start, cur_end, r.standalone_score, .REJECT,
          some "duration_constraint"⟩) ∧
    (durationBelowMin min_duration (r.refined_end - r.refined_start) = false →
      durationAboveMax max_duration (r.refined_end - r.refined_start) = false →
      PASS_THRESHOLD ≤ r.standalone_score →
      validateRefineLoop thought min_duration max_duration (fuel + 1)
        cur_start cur_end (r :: rest) =
        some ⟨r.refined_start, r.refined_end, r.standalone_score, .PASS, none⟩) ∧
    (durationBelowMin min_duration (r.refined_end - r.refined_start) = false →
      durationAboveMax max_duration (r.refined_end - r.refined_start) = false →
      REVISE_THRESHOLD ≤ r.standalone_score → r.standalone_score < PASS_THRESHOLD →
      (0 < fuel →
        validateRefinementBounds thought.expanded_start thought.expanded_end
          r.refined_start r.refined_end = false →
        validateRefineLoop thought min_duration max_duration (fuel + 1)
          cur_start cur_end (r :: rest) =
          some ⟨cur_start, cur_end, r.standalone_score, .REJECT,
            some (orStructuralIssue r.rejection_reason)⟩) ∧
      (0 < fuel →
        validateRefinementBounds thought.expanded_start thought.expanded_end
          r.refined_start r.refined_end = true →
        validateRefineLoop thought min_duration max_duration (fuel + 1)
          cur_start cur_end (r :: rest) =
        validateRefineLoop thought min_duration max_duration fuel
          r.refined_start r.refined_end rest) ∧
      (fuel = 0 →
        validateRefineLoop thought min_duration max_duration (fuel + 1)
          cur_start cur_end (r :: rest) =
          some ⟨r.refined_start, r.refined_end, r.standalone_score, .REVISE, none⟩)) ∧
    (durationBelowMin min_duration (r.refined_end - r.refined_start) = false →
      durationAboveMax max_duration (r.refined_end - r.refined_start) = false →
      r.standalone_score < REVISE_THRESHOLD →
      validateRefineLoop thought min_duration max_duration (fuel + 1)
        cur_start cur_end (r :: rest) =
        some ⟨cur_start, cur_end, r.standalone_score, .REJECT, r.rejection_reason⟩) := by
  refine ⟨?_, ?_, ?_, ?_⟩
  · rintro (hd | hd)
    · simp [validateRefineLoop, hd]
    · cases hbm : durationBelowMin min_duration (r.refined_end - r.refined_start) with
      | true => simp [validateRefineLoop, hbm]
      | false => simp [validateRefineLoop, hbm, hd]
  · intro hd1 hd2 hp
    simp [validateRefineLoop, hd1, hd2, hp]
  · intro hd1 hd2 hs2 hs1
    refine ⟨?_, ?_, ?_⟩
    · intro hf hb
      simp [validateRefineLoop, hd1, hd2, not_le.mpr hs1, hs2, hf, hb]
    · intro hf hb
      simp [validateRefineLoop, hd1, hd2, not_le.mpr hs1, hs2, hf, hb]
    · intro hf
      subst hf
      simp [validateRefineLoop, hd1, hd2, not_le.mpr hs1, hs2]
  · intro hd1 hd2 hs
    have hs' : r.standalone_score < PASS_THRESHOLD :=
      lt_trans hs (by norm_num [REVISE_THRESHOLD, PASS_THRESHOLD])
    simp [validateRefineLoop, hd1, hd2, not_le.mpr hs', not_le.mpr hs]

/-- Witness for `c2_verdict_deterministic`: a response violating a configured
minimum duration is rejected with reason `duration_constraint` even though it
scores 0.9. -/
theorem c2_verdict_deterministic_witness :
    validateRefineLoop ⟨0, 30⟩ (some 100) none (1 + 1) 0 30 [⟨0, 10, 9/10, none⟩] =
      some ⟨0, 30, 9/10, .REJECT, some "duration_constraint"⟩ :=
  (c2_verdict_deterministic ⟨0, 30⟩ (some 100) none 1 0 30 ⟨0, 10, 9/10, none⟩ []).1
    (Or.inl (by norm_num [durationBelowMin]))

/-- C10: every clip returned by `_validate_and_refine` with verdict REJECT
carries the bounds that were evaluated in the rejecting round (the Layer-2
expanded bounds, or a previously adopted refinement that passed the
15-second check), so its bounds are within 15 seconds of the source
thought's expanded bounds. -/
theorem c10_reject_bounds (thought : Thought) (min_duration max_duration : Option ℚ)
    (responses : List ValResponse) (clip : Clip)
    (h : validateAndRefine thought min_duration max_duration responses = some clip)
    (hr : clip.verdict = .REJECT) :
    |clip.refined_start - thought.expanded_start| ≤ 15 ∧
    |clip.refined_end - thought.expanded_end| ≤ 15 :=
  validateRefineLoop_reject_within thought min_duration max_duration
    MAX_ITERATIONS thought.expanded_start thought.expanded_end responses clip
    (by simp) (by simp) h hr

/-- Witness for `c10_reject_bounds` at a concrete run: a low-scoring response
is rejected with the expanded bounds (0, 30), which are 0 seconds from
themselves. -/
theorem c10_reject_bounds_witness :
    |(0 : ℚ) - 0| ≤ 15 ∧ |(30 : ℚ) - 30| ≤ 15 :=
  c10_reject_bounds ⟨0, 30⟩ none none [⟨0, 30, 1/10, some "missing_premise"⟩]
    ⟨0, 30, 1/10, .REJECT, some "missing_premise"⟩
    (by show validateRefineLoop _ none none (1 + 1) _ _ _ = _
        norm_num [validateRefineLoop, durationBelowMin, durationAboveMax,
          PASS_THRESHOLD, REVISE_THRESHOLD])
    rfl

/-! ## Theorems about the boundary analyzer (Layer 2) -/

/-- C3, counterexample. The claim says every thought returned by
`_analyze_single` satisfies `expanded_start ≤ rough_start`,
`rough_end ≤ expanded_end` and the 30-second expansion caps for every
well-formed service response. The code performs no such validation: a
well-formed response proposing (100, 200) for a moment with rough bounds
(0, 10) is returned as-is, with `expanded_start = 100 > rough_start = 0`. -/
theorem c3_counterexample :
    analyzeSingle ⟨0, 10, 0⟩ [⟨0, 5, []⟩] ⟨100, 200, 1/2⟩ =
      some ⟨100, 200, 1/2, ⟨0, 10, 0⟩⟩ ∧
    ¬ ((100 : ℚ) ≤ 0) := by
  constructor
  · norm_num [analyzeSingle, CONTEXT_WINDOW_SECONDS, List.filter]
  · norm_num

/-- C3, amended: `_analyze_single` passes the response's expanded bounds
through unvalidated (the hard constraints live only in the prompt text), so
the returned thought satisfies the claimed invariant exactly when the
response does. -/
theorem c3_boundary_passthrough (moment : Moment) (segments : List Segment)
    (response : BoundaryResponse) (tb : ThoughtBoundary)
    (h : analyzeSingle moment segments response = some tb) :
    tb.expanded_start = response.expanded_start ∧
    tb.expanded_end = response.expanded_end ∧
    tb.original_moment = moment ∧
    ((response.expanded_start ≤ moment.rough_start ∧
      moment.rough_end ≤ response.expanded_end ∧
      moment.rough_start - response.expanded_start ≤ 30 ∧
      response.expanded_end - moment.rough_end ≤ 30) →
      (tb.expanded_start ≤ tb.original_moment.rough_start ∧
       tb.original_moment.rough_end ≤ tb.expanded_end ∧
       tb.original_moment.rough_start - tb.expanded_start ≤ 30 ∧
       tb.expanded_end - tb.original_moment.rough_end ≤ 30)) := by
  simp only [analyzeSingle] at h
  split_ifs at h
  cases Option.some.inj h
  exact ⟨rfl, rfl, rfl, fun hx => hx⟩

/-- Witness for `c3_boundary_passthrough`: a compliant response (-5, 20) for
rough bounds (0, 10) yields a thought satisfying the invariant. -/
theorem c3_boundary_passthrough_witness :
    (-5 : ℚ) ≤ 0 ∧ (10 : ℚ) ≤ 20 ∧ (0 : ℚ) - (-5) ≤ 30 ∧ (20 : ℚ) - 10 ≤ 30 :=
  (c3_boundary_passthrough ⟨0, 10, 0⟩ [⟨0, 5, []⟩] ⟨-5, 20, 9/10⟩
      ⟨-5, 20, 9/10, ⟨0, 10, 0⟩⟩
      (by norm_num [analyzeSingle, CONTEXT_WINDOW_SECONDS, List.filter])).2.2.2
    (by norm_num)

/-! ## Theorems about merge / dedup (Layer 1) -/

/-- Disjoint moments have overlap ratio zero. -/
lemma calculateOverlap_eq_zero (m1 m2 : Moment) (h : m1.rough_end ≤ m2.rough_start) :
    calculateOverlap m1 m2 = 0 := by
  have hes : min m1.rough_end m2.rough_end ≤ max m1.rough_start m2.rough_start :=
    le_trans (min_le_left _ _) (le_trans h (le_max_right _ _))
  simp only [calculateOverlap]
  rw [if_pos hes]

/-- A positive overlap ratio means the second moment starts before the first
one ends. -/
lemma calculateOverlap_pos (m1 m2 : Moment) (h : 0 < calculateOverlap m1 m2) :
    m2.rough_start < m1.rough_end := by
  by_contra hc
  rw [calculateOverlap_eq_zero m1 m2 (not_lt.mp hc)] at h
  exact lt_irrefl 0 h

/-- Unfolding of the inner scan when the break guard fires. -/
lemma innerScan_cons_break {m1 m2 : Moment} (rest : List Moment)
    (h : m1.rough_end < m2.rough_start) :
    innerScan m1 (m2 :: rest) = (true, m2 :: rest) := by
  simp [innerScan, h]

/-- Unfolding of the inner scan when the pair is a duplicate and the later
moment wins. -/
lemma innerScan_cons_drop_self {m1 m2 : Moment} (rest : List Moment)
    (h1 : ¬ m1.rough_end < m2.rough_start)
    (h2 : DEDUP_THRESHOLD < calculateOverlap m1 m2)
    (h3 : m1.interest_score < m2.interest_score) :
    innerScan m1 (m2 :: rest) = (false, m2 :: rest) := by
  simp [innerScan, h1, h2, h3]

/-- Unfolding of the inner scan when the pair is a duplicate and the earlier
moment wins. -/
lemma innerScan_cons_drop_other {m1 m2 : Moment} (rest : List Moment)
    (h1 : ¬ m1.rough_end < m2.rough_start)
    (h2 : DEDUP_THRESHOLD < calculateOverlap m1 m2)
    (h3 : ¬ m1.interest_score < m2.interest_score) :
    innerScan m1 (m2 :: rest) = innerScan m1 rest := by
  simp [innerScan, h1, h2, h3]

/-- Unfolding of the inner scan when the pair is not a duplicate. -/
lemma innerScan_cons_keep {m1 m2 : Moment} (rest : List Moment)
    (h1 : ¬ m1.rough_end < m2.rough_start)
    (h2 : ¬ DEDUP_THRESHOLD < calculateOverlap m1 m2) :
    innerScan m1 (m2 :: rest) =
      ((innerScan m1 rest).1, m2 :: (innerScan m1 rest).2) := by
  simp [innerScan, h1, h2]

/-- The surviving pool of an inner scan is a sublist of the scanned list. -/
lemma innerScan_snd_sublist (m1 : Moment) :
    ∀ l : List Moment, (innerScan m1 l).2.Sublist l := by
  intro l
  induction l with
  | nil => simp [innerScan]
  | cons m2 rest ih =>
      by_cases h1 : m1.rough_end < m2.rough_start
      · rw [innerScan_cons_break rest h1]
      · by_cases h2 : DEDUP_THRESHOLD < calculateOverlap m1 m2
        · by_cases h3 : m1.interest_score < m2.interest_score
          · rw [innerScan_cons_drop_self rest h1 h2 h3]
          · rw [innerScan_cons_drop_other rest h1 h2 h3]
            exact ih.trans (List.sublist_cons_self m2 rest)
        · rw [innerScan_cons_keep rest h1 h2]
          exact ih.cons₂ m2

/-- When the scanned row survives, everything left in the pool overlaps it by
at most the dedup threshold (for a pool sorted by start time). -/
lemma innerScan_keep_le (m1 : Moment) :
    ∀ l : List Moment, l.Pairwise momentLE → (innerScan m1 l).1 = true →
      ∀ x ∈ (innerScan m1 l).2, calculateOverlap m1 x ≤ DEDUP_THRESHOLD := by
  intro l
  induction l with
  | nil => intro _ _ x hx; simp [innerScan] at hx
  | cons m2 rest ih =>
      intro hp hk x hx
      by_cases h1 : m1.rough_end < m2.rough_start
      · rw [innerScan_cons_break rest h1] at hx
        have hx0 : m1.rough_end ≤ x.rough_start := by
          rcases hx with _ | hx'
          · exact le_of_lt h1
          · exact le_of_lt (lt_of_lt_of_le h1 ((List.pairwise_cons.mp hp).1 x (by assumption)))
        rw [calculateOverlap_eq_zero m1 x hx0]
        norm_num [DEDUP_THRESHOLD]
      · by_cases h2 : DEDUP_THRESHOLD < calculateOverlap m1 m2
        · by_cases h3 : m1.interest_score < m2.interest_score
          · rw [innerScan_cons_drop_self rest h1 h2 h3] at hk
            exact absurd hk (by simp)
          · rw [innerScan_cons_drop_other rest h1 h2 h3] at hk hx
            exact ih hp.of_cons hk x hx
        · rw [innerScan_cons_keep rest h1 h2] at hk hx
          rcases hx with _ | hx'
          · exact not_lt.mp h2
          · exact ih hp.of_cons hk x (by assumption)

/-- The dedup sweep returns a sublist of its input. -/
lemma mergeSweep_sublist : ∀ (fuel : ℕ) (l : List Moment),
    (mergeSweep fuel l).Sublist l := by
  intro fuel
  induction fuel with
  | zero => intro l; simp [mergeSweep]
  | succ fuel ih =>
      intro l
      cases l with
      | nil => simp [mergeSweep]
      | cons m1 rest =>
          simp only [mergeSweep]
          split_ifs with hk
          · exact ((ih _).trans (innerScan_snd_sublist m1 rest)).cons₂ m1
          · exact ((ih _).trans (innerScan_snd_sublist m1 rest)).cons m1

/-- Survivors of the dedup sweep of a start-sorted pool are pairwise within
the dedup threshold. -/
lemma mergeSweep_pairwise : ∀ (fuel : ℕ) (l : List Moment), l.Pairwise momentLE →
    (mergeSweep fuel l).Pairwise
      (fun a b => calculateOverlap a b ≤ DEDUP_THRESHOLD) := by
  intro fuel
  induction fuel with
  | zero => intro l _; simp [mergeSweep]
  | succ fuel ih =>
      intro l hp
      cases l with
      | nil => simp [mergeSweep]
      | cons m1 rest =>
          have hrest : ((innerScan m1 rest).2).Pairwise momentLE :=
            List.Pairwise.sublist (innerScan_snd_sublist m1 rest) hp.of_cons
          simp only [mergeSweep]
          split_ifs with hk
          · refine List.pairwise_cons.mpr ⟨?_, ih _ hrest⟩
            intro x hx
            exact innerScan_keep_le m1 rest hp.of_cons hk x
              ((mergeSweep_sublist fuel _).subset hx)
          · exact ih _ hrest

/-- C4: any two distinct moments surviving `_merge_chunk_results` overlap by
a ratio of at most the dedup threshold 0.5; and when a pair exceeds the
threshold during the sweep, the dropped item is the one whose interest score
is not higher (the later one on ties, as in the code). -/
theorem c4_merge_dedup (chunk_results : List (List Moment)) :
    (mergeChunkResults chunk_results).Pairwise
      (fun a b => calculateOverlap a b ≤ DEDUP_THRESHOLD) ∧
    (∀ (m1 m2 : Moment) (rest : List Moment),
      DEDUP_THRESHOLD < calculateOverlap m1 m2 →
      (m1.interest_score < m2.interest_score →
        innerScan m1 (m2 :: rest) = (false, m2 :: rest)) ∧
      (m2.interest_score ≤ m1.interest_score →
        innerScan m1 (m2 :: rest) = innerScan m1 rest)) := by
  constructor
  · exact mergeSweep_pairwise _ _ (List.sorted_insertionSort momentLE _)
  · intro m1 m2 rest hov
    have h0 : 0 < calculateOverlap m1 m2 :=
      lt_trans (by norm_num [DEDUP_THRESHOLD]) hov
    have h1 : ¬ m1.rough_end < m2.rough_start :=
      lt_asymm (calculateOverlap_pos m1 m2 h0)
    exact ⟨fun h3 => innerScan_cons_drop_self rest h1 hov h3,
      fun h3 => innerScan_cons_drop_other rest h1 hov (not_lt.mpr h3)⟩

/-- Witness for `c4_merge_dedup`: Scenario B's two moments (ratio 0.25) both
survive; and a fully-overlapping lower-scored row is the dropped one. -/
theorem c4_merge_dedup_witness :
    (mergeChunkResults [[⟨10, 40, 9/10⟩], [⟨35, 55, 7/10⟩]]).Pairwise
      (fun a b => calculateOverlap a b ≤ DEDUP_THRESHOLD) ∧
    innerScan ⟨0, 10, 1/2⟩ [⟨0, 10, 9/10⟩] = (false, [⟨0, 10, 9/10⟩]) :=
  ⟨(c4_merge_dedup [[⟨10, 40, 9/10⟩], [⟨35, 55, 7/10⟩]]).1,
   ((c4_merge_dedup []).2 ⟨0, 10, 1/2⟩ ⟨0, 10, 9/10⟩ []
      (by norm_num [calculateOverlap, DEDUP_THRESHOLD])).1 (by norm_num)⟩

/-! ## Theorems about the chunker (Layer 1) -/

/-- Token totals add across concatenation. -/
lemma sumTok_append {α : Type} (tok : α → ℕ) (l1 l2 : List α) :
    sumTok tok (l1 ++ l2) = sumTok tok l1 + sumTok tok l2 := by
  simp [sumTok]

/-- Token total of a single segment. -/
lemma sumTok_singleton {α : Type} (tok : α → ℕ) (a : α) :
    sumTok tok [a] = tok a := by
  simp [sumTok]

/-- The overlap seed is the trailing tenth of the chunk, by count. -/
lemma overlapPart_length {α : Type} (chunk : List α) :
    (overlapPart chunk).length = chunk.length / 10 := by
  simp only [overlapPart, List.length_drop]
  exact Nat.sub_sub_self (Nat.div_le_self _ _)

/-- Loop invariant of `_chunk_segments`: entering the loop with a current
chunk whose total is within the budget plus an allowance (the token cost of
its overlap seed; zero for the first chunk), and with every remaining
segment individually within the budget, every produced chunk is non-empty,
the first produced chunk stays within budget plus the allowance, and each
later chunk exceeds the budget by at most the token cost of the overlap
carried from its predecessor. -/
lemma chunkLoop_spec {α : Type} (tok : α → ℕ) (max_tokens : ℕ) :
    ∀ (segs cur : List α) (allow : ℕ),
      (∀ s ∈ segs, tok s ≤ max_tokens) →
      sumTok tok cur ≤ max_tokens + allow →
      [] ∉ chunkLoop tok max_tokens segs cur (sumTok tok cur) ∧
      (∀ c, (chunkLoop tok max_tokens segs cur (sumTok tok cur)).head? = some c →
        sumTok tok c ≤ max_tokens + allow) ∧
      (chunkLoop tok max_tokens segs cur (sumTok tok cur)).Chain'
        (fun prev c => sumTok tok c ≤ max_tokens + sumTok tok (overlapPart prev)) := by
  intro segs
  induction segs with
  | nil =>
      intro cur allow _ hbound
      by_cases hcur : cur.isEmpty
      · simp [chunkLoop, hcur]
      · refine ⟨?_, ?_, ?_⟩
        · simp only [chunkLoop, if_neg hcur, List.mem_singleton]
          intro hc
          rw [← hc] at hcur
          exact hcur rfl
        · intro c hc
          simp only [chunkLoop, if_neg hcur, List.head?_cons, Option.some.injEq] at hc
          rw [← hc]
          exact hbound
        · simp [chunkLoop, if_neg hcur]
  | cons seg rest ih =>
      intro cur allow h hbound
      have hseg : tok seg ≤ max_tokens := h seg (by simp)
      have hrest : ∀ s ∈ rest, tok s ≤ max_tokens := fun s hs => h s (by simp [hs])
      by_cases hclose : max_tokens < sumTok tok cur + tok seg ∧ ¬ cur.isEmpty
      · -- close the chunk, reseed with the overlap
        have heq : sumTok tok (overlapPart cur ++ [seg]) =
            sumTok tok (overlapPart cur) + tok seg := by
          rw [sumTok_append, sumTok_singleton]
        have hrec := ih (overlapPart cur ++ [seg]) (sumTok tok (overlapPart cur)) hrest
          (by rw [heq]; omega)
        rw [heq] at hrec
        simp only [chunkLoop, if_pos hclose]
        refine ⟨?_, ?_, ?_⟩
        · intro hmem
          rcases hmem with _ | hmem'
          · simp at hclose
          · exact hrec.1 (by assumption)
        · intro c hc
          simp only [List.head?_cons, Option.some.injEq] at hc
          rw [← hc]
          exact hbound
        · rw [List.chain'_cons']
          exact ⟨fun y hy => hrec.2.1 y hy, hrec.2.2⟩
      · -- append the segment to the current chunk
        have heq : sumTok tok (cur ++ [seg]) = sumTok tok cur + tok seg := by
          rw [sumTok_append, sumTok_singleton]
        have hbound' : sumTok tok (cur ++ [seg]) ≤ max_tokens + allow := by
          rw [heq]
          by_cases hcur : cur.isEmpty
          · have hnil : cur = [] := List.isEmpty_iff.mp hcur
            have h0 : sumTok tok cur = 0 := by rw [hnil]; rfl
            omega
          · have hle : sumTok tok cur + tok seg ≤ max_tokens := by
              by_contra hgt
              push_neg at hgt
              exact hclose ⟨hgt, hcur⟩
            omega
        have hrec := ih (cur ++ [seg]) allow hrest hbound'
        rw [heq] at hrec
        simp only [chunkLoop, if_neg hclose]
        exact hrec

/-- C5, counterexample. The claim says every chunk's token total is within
the budget except for the cost of the overlap carried from the previous
chunk. A single segment costing 5 tokens against a budget of 1 produces a
first chunk (which carries no overlap) whose total exceeds the budget. -/
theorem c5_counterexample :
    chunkSegments (fun _ : ℕ => 5) 1 [0] = [[0]] ∧
    ¬ sumTok (fun _ : ℕ => 5) [0] ≤ 1 := by
  constructor
  · rfl
  · decide

/-- C5, amended: when every individual segment's estimated token cost is
within the budget, no chunk is empty, the first chunk's total is within the
budget, and every later chunk's total is within the budget plus the token
cost of the trailing-tenth overlap of its predecessor. Without that
assumption a single oversized segment yields an over-budget chunk. -/
theorem c5_chunk_budget {α : Type} (tok : α → ℕ) (max_tokens : ℕ)
    (segments : List α) (h : ∀ s ∈ segments, tok s ≤ max_tokens) :
    [] ∉ chunkSegments tok max_tokens segments ∧
    (∀ c, (chunkSegments tok max_tokens segments).head? = some c →
      sumTok tok c ≤ max_tokens) ∧
    (chunkSegments tok max_tokens segments).Chain'
      (fun prev c => sumTok tok c ≤ max_tokens + sumTok tok (overlapPart prev)) ∧
    (∀ prev : List α, (overlapPart prev).length = prev.length / 10) := by
  have hspec := chunkLoop_spec tok max_tokens segments [] 0 h (by simp [sumTok])
  refine ⟨hspec.1, fun c hc => by simpa using hspec.2.1 c hc, hspec.2.2,
    overlapPart_length⟩

/-- Witness for `c5_chunk_budget` on a concrete in-budget segment list. -/
theorem c5_chunk_budget_witness :
    [] ∉ chunkSegments id 3 [1, 2, 3] ∧
    (chunkSegments id 3 [1, 2, 3]).Chain'
      (fun prev c => sumTok id c ≤ 3 + sumTok id (overlapPart prev)) :=
  ⟨(c5_chunk_budget id 3 [1, 2, 3] (by decide)).1,
   (c5_chunk_budget id 3 [1, 2, 3] (by decide)).2.2.1⟩

/-! ## Theorems about boundary alignment -/

/-- Folding `max` over a list yields the start value or a member. -/
lemma foldl_max_mem (xs : List ℚ) : ∀ a : ℚ, xs.foldl max a = a ∨ xs.foldl max a ∈ xs := by
  induction xs with
  | nil => intro a; left; rfl
  | cons x xs ih =>
      intro a
      rcases ih (max a x) with h | h
      · rw [List.foldl_cons, h]
        rcases max_choice a x with h' | h'
        · left; exact h'
        · right; rw [h']; exact List.mem_cons_self x xs
      · right
        rw [List.foldl_cons]
        exact List.mem_cons_of_mem x h

/-- Folding `max` dominates the start value and every member. -/
lemma foldl_max_ge (xs : List ℚ) :
    ∀ a : ℚ, a ≤ xs.foldl max a ∧ ∀ x ∈ xs, x ≤ xs.foldl max a := by
  induction xs with
  | nil => intro a; exact ⟨le_refl a, by simp⟩
  | cons y xs ih =>
      intro a
      have h := ih (max a y)
      refine ⟨le_trans (le_max_left a y) h.1, ?_⟩
      intro x hx
      rcases List.mem_cons.mp hx with rfl | hx'
      · exact le_trans (le_max_right a x) h.1
      · exact h.2 x hx'

/-- Folding `min` over a list yields the start value or a member. -/
lemma foldl_min_mem (xs : List ℚ) : ∀ a : ℚ, xs.foldl min a = a ∨ xs.foldl min a ∈ xs := by
  induction xs with
  | nil => intro a; left; rfl
  | cons x xs ih =>
      intro a
      rcases ih (min a x) with h | h
      · rw [List.foldl_cons, h]
        rcases min_choice a x with h' | h'
        · left; exact h'
        · right; rw [h']; exact List.mem_cons_self x xs
      · right
        rw [List.foldl_cons]
        exact List.mem_cons_of_mem x h

/-- Folding `min` is below the start value and every member. -/
lemma foldl_min_le (xs : List ℚ) :
    ∀ a : ℚ, xs.foldl min a ≤ a ∧ ∀ x ∈ xs, xs.foldl min a ≤ x := by
  induction xs with
  | nil => intro a; exact ⟨le_refl a, by simp⟩
  | cons y xs ih =>
      intro a
      have h := ih (min a y)
      refine ⟨le_trans h.1 (min_le_left a y), ?_⟩
      intro x hx
      rcases List.mem_cons.mp hx with rfl | hx'
      · exact le_trans h.1 (min_le_right a x)
      · exact h.2 x hx'

/-- A maximum of a list is a member dominating all members. -/
lemma maxQ?_spec {l : List ℚ} {m : ℚ} (h : maxQ? l = some m) :
    m ∈ l ∧ ∀ x ∈ l, x ≤ m := by
  cases l with
  | nil => cases h
  | cons x xs =>
      have hm : m = xs.foldl max x := (Option.some.inj h).symm
      subst hm
      constructor
      · rcases foldl_max_mem xs x with h' | h'
        · rw [h']; exact List.mem_cons_self x xs
        · exact List.mem_cons_of_mem x h'
      · intro y hy
        rcases List.mem_cons.mp hy with rfl | hy'
        · exact (foldl_max_ge xs y).1
        · exact (foldl_max_ge xs x).2 y hy'

/-- A minimum of a list is a member below all members. -/
lemma minQ?_spec {l : List ℚ} {m : ℚ} (h : minQ? l = some m) :
    m ∈ l ∧ ∀ x ∈ l, m ≤ x := by
  cases l with
  | nil => cases h
  | cons x xs =>
      have hm : m = xs.foldl min x := (Option.some.inj h).symm
      subst hm
      constructor
      · rcases foldl_min_mem xs x with h' | h'
        · rw [h']; exact List.mem_cons_self x xs
        · exact List.mem_cons_of_mem x h'
      · intro y hy
        rcases List.mem_cons.mp hy with rfl | hy'
        · exact (foldl_min_le xs y).1
        · exact (foldl_min_le xs x).2 y hy'

/-- An empty maximum means an empty list. -/
lemma maxQ?_eq_none {l : List ℚ} (h : maxQ? l = none) : l = [] := by
  cases l with
  | nil => rfl
  | cons x xs => cases h

/-- An empty minimum means an empty list. -/
lemma minQ?_eq_none {l : List ℚ} (h : minQ? l = none) : l = [] := by
  cases l with
  | nil => rfl
  | cons x xs => cases h

/-- What a successful backward boundary search guarantees. -/
lemma nearestBefore_some {ts d b : ℚ} {bs : List ℚ}
    (h : nearestBoundaryBefore ts bs (some d) = some b) :
    b ∈ bs ∧ b ≤ ts ∧ ts - b ≤ d := by
  unfold nearestBoundaryBefore at h
  cases hm : maxQ? (bs.filter (fun x => x ≤ ts)) with
  | none => rw [hm] at h; cases h
  | some m =>
      rw [hm] at h
      dsimp at h
      split_ifs at h with hd
      have hmb : m = b := Option.some.inj h
      subst hmb
      have hmem := (maxQ?_spec hm).1
      have hm1 : m ∈ bs := (List.mem_filter.mp hmem).1
      have hm2 : m ≤ ts := by
        have := (List.mem_filter.mp hmem).2
        exact of_decide_eq_true this
      exact ⟨hm1, hm2, not_lt.mp hd⟩

/-- What a successful forward boundary search guarantees. -/
lemma nearestAfter_some {ts d b : ℚ} {bs : List ℚ}
    (h : nearestBoundaryAfter ts bs (some d) = some b) :
    b ∈ bs ∧ ts ≤ b ∧ b - ts ≤ d := by
  unfold nearestBoundaryAfter at h
  cases hm : minQ? (bs.filter (fun x => ts ≤ x)) with
  | none => rw [hm] at h; cases h
  | some m =>
      rw [hm] at h
      dsimp at h
      split_ifs at h with hd
      have hmb : m = b := Option.some.inj h
      subst hmb
      have hmem := (minQ?_spec hm).1
      have hm1 : m ∈ bs := (List.mem_filter.mp hmem).1
      have hm2 : ts ≤ m := by
        have := (List.mem_filter.mp hmem).2
        exact of_decide_eq_true this
      exact ⟨hm1, hm2, not_lt.mp hd⟩

/-- Searching backward from a time that is itself a boundary finds it. -/
lemma nearestBefore_self {b d : ℚ} {bs : List ℚ} (hb : b ∈ bs) (hd : 0 ≤ d) :
    nearestBoundaryBefore b bs (some d) = some b := by
  unfold nearestBoundaryBefore
  have hmem : b ∈ bs.filter (fun x => x ≤ b) :=
    List.mem_filter.mpr ⟨hb, by simp⟩
  cases hm : maxQ? (bs.filter (fun x => x ≤ b)) with
  | none => exact absurd hmem (by rw [maxQ?_eq_none hm]; simp)
  | some m =>
      have hspec := maxQ?_spec hm
      have hmb : m ≤ b := of_decide_eq_true (List.mem_filter.mp hspec.1).2
      have hbm : b ≤ m := hspec.2 b hmem
      have : m = b := le_antisymm hmb hbm
      subst this
      dsimp
      rw [if_neg (by rw [sub_self]; exact not_lt.mpr hd)]

/-- Searching forward from a time that is itself a boundary finds it. -/
lemma nearestAfter_self {b d : ℚ} {bs : List ℚ} (hb : b ∈ bs) (hd : 0 ≤ d) :
    nearestBoundaryAfter b bs (some d) = some b := by
  unfold nearestBoundaryAfter
  have hmem : b ∈ bs.filter (fun x => b ≤ x) :=
    List.mem_filter.mpr ⟨hb, by simp⟩
  cases hm : minQ? (bs.filter (fun x => b ≤ x)) with
  | none => exact absurd hmem (by rw [minQ?_eq_none hm]; simp)
  | some m =>
      have hspec := minQ?_spec hm
      have hbm : b ≤ m := of_decide_eq_true (List.mem_filter.mp hspec.1).2
      have hmb : m ≤ b := hspec.2 b hmem
      have : m = b := le_antisymm hmb hbm
      subst this
      dsimp
      rw [if_neg (by rw [sub_self]; exact not_lt.mpr hd)]

/-- The aligned start never moves forward. -/
lemma alignedStart_le (s : ℚ) (bs : List ℚ) (maxAdj : ℚ) :
    (nearestBoundaryBefore s bs (some maxAdj)).getD s ≤ s := by
  cases h : nearestBoundaryBefore s bs (some maxAdj) with
  | none => simp
  | some b => simpa using (nearestBefore_some h).2.1

/-- The aligned end never moves backward. -/
lemma le_alignedEnd (e : ℚ) (bs : List ℚ) (maxAdj : ℚ) :
    e ≤ (nearestBoundaryAfter e bs (some maxAdj)).getD e := by
  cases h : nearestBoundaryAfter e bs (some maxAdj) with
  | none => simp
  | some b => simpa using (nearestAfter_some h).2.1

/-- Re-running the backward alignment from an aligned start is a fixpoint. -/
lemma realign_before (s : ℚ) (bs : List ℚ) (maxAdj : ℚ) :
    (nearestBoundaryBefore ((nearestBoundaryBefore s bs (some maxAdj)).getD s) bs
      (some maxAdj)).getD ((nearestBoundaryBefore s bs (some maxAdj)).getD s) =
      (nearestBoundaryBefore s bs (some maxAdj)).getD s := by
  cases h1 : nearestBoundaryBefore s bs (some maxAdj) with
  | none => simp [h1]
  | some b =>
      obtain ⟨hmem, hle, hdist⟩ := nearestBefore_some h1
      have hd0 : (0 : ℚ) ≤ maxAdj := le_trans (by linarith) hdist
      simp [nearestBefore_self hmem hd0]

/-- Re-running the forward alignment from an aligned end is a fixpoint. -/
lemma realign_after (e : ℚ) (bs : List ℚ) (maxAdj : ℚ) :
    (nearestBoundaryAfter ((nearestBoundaryAfter e bs (some maxAdj)).getD e) bs
      (some maxAdj)).getD ((nearestBoundaryAfter e bs (some maxAdj)).getD e) =
      (nearestBoundaryAfter e bs (some maxAdj)).getD e := by
  cases h1 : nearestBoundaryAfter e bs (some maxAdj) with
  | none => simp [h1]
  | some b =>
      obtain ⟨hmem, hle, hdist⟩ := nearestAfter_some h1
      have hd0 : (0 : ℚ) ≤ maxAdj := le_trans (by linarith) hdist
      simp [nearestAfter_self hmem hd0]

/-- Shape of `align_clip_to_boundaries` for `end > start`: the edge alignment
never inverts the clip or triggers the 20%-shrink revert (it can only grow
the clip), so the result is the original pair (8-second floor) or the
aligned start paired with some corrected end; with no `max_clip_duration`
that end never falls below the requested end, and with no constraints at all
it is exactly the aligned end. -/
lemma align_after_shrink (s e : ℚ) (bs : List ℚ) (maxAdj : ℚ)
    (minD maxD : Option ℚ) (h : s < e) :
    ∃ e4 : ℚ,
      alignClipToBoundaries s e bs maxAdj minD maxD =
        (if e4 - (nearestBoundaryBefore s bs (some maxAdj)).getD s < 8
         then (s, e)
         else ((nearestBoundaryBefore s bs (some maxAdj)).getD s, e4)) ∧
      (maxD = none → e ≤ e4) ∧
      (minD = none → maxD = none →
        e4 = (nearestBoundaryAfter e bs (some maxAdj)).getD e) := by
  have f1 : (nearestBoundaryBefore s bs (some maxAdj)).getD s ≤ s :=
    alignedStart_le s bs maxAdj
  have f2 : e ≤ (nearestBoundaryAfter e bs (some maxAdj)).getD e :=
    le_alignedEnd e bs maxAdj
  simp only [alignClipToBoundaries]
  set as := (nearestBoundaryBefore s bs (some maxAdj)).getD s with has
  set ae0 := (nearestBoundaryAfter e bs (some maxAdj)).getD e with hae
  have f3 : ¬ (ae0 ≤ as) := not_le.mpr (lt_of_le_of_lt f1 (lt_of_lt_of_le h f2))
  rw [if_neg f3]
  have f4 : ¬ (0 < e - s ∧ ae0 - as < (e - s) * (1/5)) := by
    rintro ⟨hpos, hlt⟩
    have hge : e - s ≤ ae0 - as := by linarith
    linarith
  rw [if_neg f4]
  cases minD with
  | none =>
      cases maxD with
      | none =>
          dsimp only
          exact ⟨ae0, rfl, fun _ => f2, fun _ _ => rfl⟩
      | some mD =>
          dsimp only
          exact ⟨_, rfl, fun hx => Option.noConfusion hx, fun _ hx => Option.noConfusion hx⟩
  | some md =>
      cases maxD with
      | none =>
          dsimp only
          refine ⟨_, rfl, fun _ => ?_, fun hx _ => Option.noConfusion hx⟩
          split_ifs with hdur
          · cases hfind : nearestBoundaryAfter (as + md) bs (some 5) with
            | none => simpa using f2
            | some t =>
                have := (nearestAfter_some hfind).2.1
                simp only [Option.getD_some]
                linarith
          · exact f2
      | some mD =>
          dsimp only
          exact ⟨_, rfl, fun hx => Option.noConfusion hx, fun hx _ => Option.noConfusion hx⟩

/-- C6: the claim's three guard properties. Part (b) — duration below 20% of
the original only when reverted to the original — holds only without a
`max_clip_duration` constraint; see `c6_counterexample`. Parts (a) and (c)
hold unconditionally: the result never has `end ≤ start`, and a result
shorter than 8 seconds is exactly the original pair. -/
theorem c6_alignment_guards (s e : ℚ) (bs : List ℚ) (maxAdj : ℚ)
    (minD maxD : Option ℚ) (h : s < e) :
    (alignClipToBoundaries s e bs maxAdj minD maxD).1 <
      (alignClipToBoundaries s e bs maxAdj minD maxD).2 ∧
    ((alignClipToBoundaries s e bs maxAdj minD maxD).2 -
        (alignClipToBoundaries s e bs maxAdj minD maxD).1 < 8 →
      alignClipToBoundaries s e bs maxAdj minD maxD = (s, e)) ∧
    (maxD = none →
      (alignClipToBoundaries s e bs maxAdj minD maxD).2 -
          (alignClipToBoundaries s e bs maxAdj minD maxD).1 < (e - s) * (1/5) →
      alignClipToBoundaries s e bs maxAdj minD maxD = (s, e)) := by
  obtain ⟨e4, heq, hmax, -⟩ := align_after_shrink s e bs maxAdj minD maxD h
  have hasle : (nearestBoundaryBefore s bs (some maxAdj)).getD s ≤ s :=
    alignedStart_le s bs maxAdj
  by_cases hfin : e4 - (nearestBoundaryBefore s bs (some maxAdj)).getD s < 8
  · rw [heq, if_pos hfin]
    exact ⟨h, fun _ => rfl, fun _ _ => rfl⟩
  · rw [heq, if_neg hfin]
    push_neg at hfin
    dsimp
    refine ⟨by linarith, fun hlt => absurd hlt (by push_neg; linarith), ?_⟩
    intro hnone hlt
    have he4 : e ≤ e4 := hmax hnone
    exact absurd hlt (by push_neg; nlinarith)

/-- C6, counterexample for part (b) of the claim. With a configured
`max_clip_duration` the end trim legitimately produces a clip far shorter
than 20% of the original without reverting: clip (0, 100), a single boundary
at 10, `max_adjustment` 10 and `max_clip_duration` 12 trims to (0, 10),
whose duration 10 is below 20% of 100, and the result is not the original
pair. -/
theorem c6_counterexample :
    alignClipToBoundaries 0 100 [10] 10 none (some 12) = (0, 10) ∧
    (10 : ℚ) - 0 < ((100 : ℚ) - 0) * (1/5) ∧
    ((0 : ℚ), (10 : ℚ)) ≠ (0, 100) := by
  refine ⟨?_, by norm_num, by norm_num⟩
  norm_num [alignClipToBoundaries, nearestBoundaryBefore, nearestBoundaryAfter,
    maxQ?, minQ?, List.filter]

/-- Witness for `c6_alignment_guards` at Scenario C's inputs. -/
theorem c6_alignment_guards_witness :
    (alignClipToBoundaries 100 160 [98, 240] 10 none none).1 <
      (alignClipToBoundaries 100 160 [98, 240] 10 none none).2 :=
  (c6_alignment_guards 100 160 [98, 240] 10 none none (by norm_num)).1

/-- C7, counterexample. With both duration constraints configured,
`align_clip_to_boundaries` is not idempotent: for clip (0, 20) against
boundaries {8, 13} with `max_adjustment` 10, `min_clip_duration` 10 and
`max_clip_duration` 12, the first pass trims the end to the boundary at 8
(duration 8, below the minimum), and re-aligning the result extends it to
the boundary at 13, changing the pair. -/
theorem c7_counterexample :
    alignClipToBoundaries 0 20 [8, 13] 10 (some 10) (some 12) = (0, 8) ∧
    alignClipToBoundaries 0 8 [8, 13] 10 (some 10) (some 12) = (0, 13) ∧
    ((0 : ℚ), (13 : ℚ)) ≠ (0, 8) := by
  refine ⟨?_, ?_, by norm_num⟩ <;>
    norm_num [alignClipToBoundaries, nearestBoundaryBefore, nearestBoundaryAfter,
      maxQ?, minQ?, List.filter]

/-- C7, amended: with no duration constraints configured, alignment is
idempotent — re-aligning the returned pair against the same boundary list
with the same `max_adjustment` returns it unchanged. -/
theorem c7_idempotent_no_constraints (s e : ℚ) (bs : List ℚ) (maxAdj : ℚ)
    (h : s < e) :
    alignClipToBoundaries (alignClipToBoundaries s e bs maxAdj none none).1
      (alignClipToBoundaries s e bs maxAdj none none).2 bs maxAdj none none =
      alignClipToBoundaries s e bs maxAdj none none := by
  obtain ⟨e4, heq, hmax, hid⟩ := align_after_shrink s e bs maxAdj none none h
  have he40 : e4 = (nearestBoundaryAfter e bs (some maxAdj)).getD e := hid rfl rfl
  by_cases hfin : e4 - (nearestBoundaryBefore s bs (some maxAdj)).getD s < 8
  · rw [heq, if_pos hfin]
    dsimp
    rw [heq, if_pos hfin]
  · rw [heq, if_neg hfin]
    push_neg at hfin
    dsimp
    have hasle : (nearestBoundaryBefore s bs (some maxAdj)).getD s ≤ s :=
      alignedStart_le s bs maxAdj
    have hlt : (nearestBoundaryBefore s bs (some maxAdj)).getD s < e4 := by linarith
    obtain ⟨e4', heq', hmax', hid'⟩ := align_after_shrink
      ((nearestBoundaryBefore s bs (some maxAdj)).getD s) e4 bs maxAdj none none hlt
    have hstart := realign_before s bs maxAdj
    have hend : (nearestBoundaryAfter e4 bs (some maxAdj)).getD e4 = e4 := by
      rw [he40]
      exact realign_after e bs maxAdj
    have he4' : e4' = e4 := by rw [hid' rfl rfl, hend]
    rw [heq', he4', hstart, if_neg (not_lt.mpr hfin)]

/-- Witness for `c7_idempotent_no_constraints` at Scenario C's inputs. -/
theorem c7_idempotent_witness :
    alignClipToBoundaries (alignClipToBoundaries 100 160 [98, 240] 10 none none).1
      (alignClipToBoundaries 100 160 [98, 240] 10 none none).2 [98, 240] 10 none none =
      alignClipToBoundaries 100 160 [98, 240] 10 none none :=
  c7_idempotent_no_constraints 100 160 [98, 240] 10 (by norm_num)

/-- C9: with no duration constraints, alignment is outward-monotone — the
returned start is at most the requested start, the returned end is at least
the requested end, and the duration never shrinks. -/
theorem c9_outward_monotone (s e : ℚ) (bs : List ℚ) (maxAdj : ℚ) (h : s < e) :
    (alignClipToBoundaries s e bs maxAdj none none).1 ≤ s ∧
    e ≤ (alignClipToBoundaries s e bs maxAdj none none).2 ∧
    e - s ≤ (alignClipToBoundaries s e bs maxAdj none none).2 -
      (alignClipToBoundaries s e bs maxAdj none none).1 := by
  obtain ⟨e4, heq, hmax, -⟩ := align_after_shrink s e bs maxAdj none none h
  have he4 : e ≤ e4 := hmax rfl
  have hasle : (nearestBoundaryBefore s bs (some maxAdj)).getD s ≤ s :=
    alignedStart_le s bs maxAdj
  by_cases hfin : e4 - (nearestBoundaryBefore s bs (some maxAdj)).getD s < 8
  · rw [heq, if_pos hfin]
    exact ⟨le_refl s, le_refl e, le_refl _⟩
  · rw [heq, if_neg hfin]
    dsimp
    exact ⟨hasle, he4, by linarith⟩

/-- Witness for `c9_outward_monotone` at Scenario C's inputs: start aligns
back to 98, the end search finds nothing within 10 seconds of 160, so the
end stays put. -/
theorem c9_outward_monotone_witness :
    (alignClipToBoundaries 100 160 [98, 240] 10 none none).1 ≤ 100 ∧
    160 ≤ (alignClipToBoundaries 100 160 [98, 240] 10 none none).2 ∧
    (160 : ℚ) - 100 ≤ (alignClipToBoundaries 100 160 [98, 240] 10 none none).2 -
      (alignClipToBoundaries 100 160 [98, 240] 10 none none).1 :=
  c9_outward_monotone 100 160 [98, 240] 10 (by norm_num)

/-! ## Theorems about sentence-boundary detection -/

/-- C8: the quote branch of `_has_sentence_ending` contradicts the claim and
the code's own comment ("Look at character before quote"). Python's
`ending.strip('.!?')` is the empty string for every sentence ending, and
`text[-2].endswith('')` is always true, so any stripped text of length at
least two that ends in a quote counts as a sentence ending — the character
before the quote is never actually examined. For the segment text
`hello"` (no terminal punctuation before the quote) the detector emits a
`sentence_end` boundary at the segment's end although the claim's predicate
(`claimSentenceEnd`, which does examine the character before the quote)
rejects it; a text like `done."` satisfies both. -/
theorem c8_quote_bug :
    hasSentenceEnding "hello\"".toList = true ∧
    claimSentenceEnd "hello\"".toList = false ∧
    findSentenceBoundaries (1/2) [⟨0, 5, "hello\"".toList⟩] =
      [⟨5, "sentence_end", 9/10⟩] ∧
    hasSentenceEnding "done.\"".toList = true ∧
    claimSentenceEnd "done.\"".toList = true := by
  refine ⟨by decide, by decide, ?_, by decide, by decide⟩
  have h1 : hasSentenceEnding (pyStrip "hello\"".toList) = true := by decide
  simp [findSentenceBoundaries, scanBoundaries, h1, dedupBoundariesAux,
    List.insertionSort, List.find?]

end Arena
